import Mathlib

/-!
# Verification of the web-scrapper pipeline (src/main.go)

Shallow embedding of the pure core of the scraper: response
classification (`scrapeWebPage`, lines 148-180), anti-bot detection
(`detectAntiBotService`), URL validation (`scrapeHandler`, lines 98-102),
URL resolution (`resolveURL`), and the single-pass HTML extraction
(`extractData`, `extractMetaTag`, `extractLink`, `extractImage`,
`extractHeading`, `getTextContent`).

Go's `net/url` library is an external collaborator; it is modelled by the
`URLLib` structure (an abstract parser/resolver), exactly as the HTML
parser is treated as a collaborator producing a tree of typed nodes
(`HNode` mirrors `golang.org/x/net/html.Node`: a node type, tag/text
data, an attribute list and children).
-/

namespace Scraper

/-- Substring test on character lists (semantics of Go `strings.Contains`
restricted to the code points both languages share): `startsWith pat l`
says `pat` occurs at the head of `l`. -/
def startsWith : List Char → List Char → Bool
  | [], _ => true
  | _ :: _, [] => false
  | a :: as, b :: bs => a = b && startsWith as bs

/-- `hasSub pat l` says `pat` occurs somewhere inside `l`. -/
def hasSub : List Char → List Char → Bool
  | pat, [] => pat.isEmpty
  | pat, b :: bs => startsWith pat (b :: bs) || hasSub pat bs

/-- Go `strings.Contains s pat`. -/
def strContains (s pat : String) : Bool :=
  hasSub pat.toList s.toList

/-- The white-space set of Go `unicode.IsSpace` restricted to Latin-1
(the range the scraper's pages actually exercise): space, tab, newline,
vertical tab, form feed, carriage return, NEL and no-break space. -/
def goIsSpace (c : Char) : Bool :=
  c = ' ' || c = '\t' || c = '\n' || c = (Char.ofNat 11) || c = (Char.ofNat 12) ||
  c = '\r' || c = (Char.ofNat 133) || c = (Char.ofNat 160)

/-- Go `strings.TrimSpace`: drop white space from both ends. -/
def trimSpace (s : String) : String :=
  ⟨(((s.toList.dropWhile goIsSpace).reverse.dropWhile goIsSpace).reverse)⟩

/-- One HTML attribute (`html.Attribute`): a key and a value. -/
structure Attribute where
  key : String
  val : String
deriving DecidableEq, Repr

/-- The node kinds of `html.Node` that the scraper distinguishes:
element nodes, text nodes, and everything else (document, comment,
doctype nodes), which the extractor treats uniformly. -/
inductive NType where
  | element
  | text
  | other
deriving DecidableEq, Repr

/-- A parsed HTML node (`html.Node`): type, data (tag name for elements,
literal text for text nodes), attributes, children in document order. -/
inductive HNode where
  | mk (ntype : NType) (data : String) (attrs : List Attribute)
       (children : List HNode)

/-- Node type accessor. -/
def HNode.ntype : HNode → NType
  | .mk t _ _ _ => t

/-- Node data accessor. -/
def HNode.data : HNode → String
  | .mk _ d _ _ => d

/-- Node attribute-list accessor. -/
def HNode.attrs : HNode → List Attribute
  | .mk _ _ a _ => a

/-- Node children accessor. -/
def HNode.children : HNode → List HNode
  | .mk _ _ _ c => c

mutual

/-- `getTextContent` (main.go 341-351): a text node yields its literal
data; any other node yields the concatenated text of its children. -/
def getTextContent : HNode → String
  | .mk t d _ cs => if t = NType.text then d else getTextContentList cs

/-- The `text += getTextContent(c)` loop of `getTextContent`. -/
def getTextContentList : List HNode → String
  | [] => ""
  | c :: cs => getTextContent c ++ getTextContentList cs

end

mutual

/-- Pre-order (document-order) listing of a subtree's nodes: the node
itself, then the pre-order listing of each child in order.  This is the
order in which `extractData` visits nodes. -/
def preorder : HNode → List HNode
  | .mk t d a cs => HNode.mk t d a cs :: preorderList cs

/-- Pre-order listing of a forest. -/
def preorderList : List HNode → List HNode
  | [] => []
  | c :: cs => preorder c ++ preorderList cs

end

/-- An extracted hyperlink (`Link`). -/
structure Link where
  href : String
  text : String
deriving DecidableEq, Repr

/-- An extracted heading (`Heading`). -/
structure Heading where
  level : Nat
  text : String
deriving DecidableEq, Repr

/-- Go `map[string]string`, modelled as an association list with
overwrite-on-insert; only lookup and insert are used by the scraper. -/
def StrMap := List (String × String)

/-- Map lookup. -/
def mapGet : List (String × String) → String → Option String
  | [], _ => none
  | (k, v) :: m, key => if k = key then some v else mapGet m key

/-- Map insert with last-write-wins semantics (`m[k] = v`). -/
def mapInsert : List (String × String) → String → String → List (String × String)
  | [], k, v => [(k, v)]
  | (k', v') :: m, k, v =>
    if k' = k then (k, v) :: m else (k', v') :: mapInsert m k v

/-- `ScrapedData` (main.go 21-30): the structured result of one run. -/
structure ScrapedData where
  url : String
  title : String
  description : String
  keywords : String
  links : List Link
  metaTags : List (String × String)
  images : List String
  headings : List Heading

/-- The empty result created at the start of extraction
(main.go 209-215). -/
def initData (url : String) : ScrapedData :=
  { url := url, title := "", description := "", keywords := "",
    links := [], metaTags := [], images := [], headings := [] }

/-- A parsed URL as far as the scraper observes it: `net/url` normalizes
the scheme to lower case during parsing, and the rest of the structure is
never inspected by this code, so it stays abstract. -/
structure URL where
  scheme : String
  rest : String
deriving DecidableEq, Repr

/-- The slice of Go's `net/url` the scraper calls: `url.Parse` (returning
`none` for a parse error), `URL.ResolveReference` (RFC 3986 reference
resolution) and `URL.String`. -/
structure URLLib where
  parse : String → Option URL
  resolveRef : URL → URL → URL
  urlToString : URL → String

/-- `resolveURL` (main.go 353-365): parse base and reference; if either
parse fails return the reference unchanged, else resolve and render. -/
def resolveURL (lib : URLLib) (baseURL href : String) : String :=
  match lib.parse baseURL with
  | none => href
  | some base =>
    match lib.parse href with
    | none => href
    | some ref => lib.urlToString (lib.resolveRef base ref)

/-- The URL validation of `scrapeHandler` (main.go 98-102): accept only
strings that parse with scheme exactly `http` or `https`. -/
def validateURL (lib : URLLib) (s : String) : Bool :=
  match lib.parse s with
  | none => false
  | some u => !(u.scheme ≠ "http" && u.scheme ≠ "https")

/-- The attribute scan of `extractLink`/`extractImage` (main.go 280-285,
300-305): walk the list and `break` at the first attribute with the given
key; missing key yields the zero value `""`. -/
def goFirstAttr : List Attribute → String → String
  | [], _ => ""
  | a :: rest, k => if a.key = k then a.val else goFirstAttr rest k

/-- The three variables filled by `extractMetaTag`'s attribute loop. -/
structure MetaTriple where
  name : String
  property : String
  content : String
deriving DecidableEq, Repr

/-- One iteration of `extractMetaTag`'s attribute loop: the switch on
`attr.Key` (main.go 253-261). -/
def metaStep (acc : MetaTriple) (a : Attribute) : MetaTriple :=
  if a.key = "name" then { acc with name := a.val }
  else if a.key = "property" then { acc with property := a.val }
  else if a.key = "content" then { acc with content := a.val }
  else acc

/-- The attribute loop of `extractMetaTag` (main.go 252-262): a switch
over every attribute, each matching key overwriting the variable, so the
last occurrence of each key wins. -/
def metaScan (attrs : List Attribute) : MetaTriple :=
  attrs.foldl metaStep { name := "", property := "", content := "" }

/-- `extractMetaTag` (main.go 251-276): store under `name` when non-empty
(also filling description/keywords for those two names), else under
`property` when non-empty, else do nothing. -/
def extractMetaTag (n : HNode) (data : ScrapedData) : ScrapedData :=
  let t := metaScan n.attrs
  if t.name ≠ "" then
    let d1 := { data with metaTags := mapInsert data.metaTags t.name t.content }
    if t.name = "description" then { d1 with description := t.content }
    else if t.name = "keywords" then { d1 with keywords := t.content }
    else d1
  else if t.property ≠ "" then
    { data with metaTags := mapInsert data.metaTags t.property t.content }
  else data

/-- `extractLink` (main.go 278-296): first `href` occurrence; when
non-empty, resolve it and append a Link with the trimmed text. -/
def extractLink (lib : URLLib) (n : HNode) (data : ScrapedData)
    (baseURL : String) : ScrapedData :=
  let href := goFirstAttr n.attrs "href"
  if href ≠ "" then
    { data with
      links := data.links ++
        [{ href := resolveURL lib baseURL href,
           text := trimSpace (getTextContent n) }] }
  else data

/-- `extractImage` (main.go 298-312): first `src` occurrence; when
non-empty, resolve it and append to images. -/
def extractImage (lib : URLLib) (n : HNode) (data : ScrapedData)
    (baseURL : String) : ScrapedData :=
  let src := goFirstAttr n.attrs "src"
  if src ≠ "" then
    { data with images := data.images ++ [resolveURL lib baseURL src] }
  else data

/-- The level switch of `extractHeading` (main.go 315-329): `h1`..`h6` to
1..6, anything else keeps the zero value 0 (unreachable from the
dispatch). -/
def headingLevel (tag : String) : Nat :=
  if tag = "h1" then 1
  else if tag = "h2" then 2
  else if tag = "h3" then 3
  else if tag = "h4" then 4
  else if tag = "h5" then 5
  else if tag = "h6" then 6
  else 0

/-- `extractHeading` (main.go 314-339): append a Heading when the trimmed
text is non-empty. -/
def extractHeading (n : HNode) (data : ScrapedData) : ScrapedData :=
  let text := trimSpace (getTextContent n)
  if text ≠ "" then
    { data with headings := data.headings ++ [{ level := headingLevel n.data, text := text }] }
  else data

/-- The element dispatch of `extractData` (main.go 230-243): the switch
on `n.Data` for element nodes, a no-op for every other node. Go's string
switch is sequential comparison. -/
def visit (lib : URLLib) (baseURL : String) (data : ScrapedData)
    (n : HNode) : ScrapedData :=
  if n.ntype = NType.element then
    if n.data = "title" then { data with title := getTextContent n }
    else if n.data = "meta" then extractMetaTag n data
    else if n.data = "a" then extractLink lib n data baseURL
    else if n.data = "img" then extractImage lib n data baseURL
    else if n.data = "h1" ∨ n.data = "h2" ∨ n.data = "h3" ∨
            n.data = "h4" ∨ n.data = "h5" ∨ n.data = "h6" then
      extractHeading n data
    else data
  else data

mutual

/-- `extractData` (main.go 229-249): handle the node itself, then
recurse into every child in document order (no pruning). -/
def extractData (lib : URLLib) : HNode → ScrapedData → String → ScrapedData
  | .mk t d a cs, data, baseURL =>
    extractDataList lib cs (visit lib baseURL data (.mk t d a cs)) baseURL

/-- The child loop of `extractData`. -/
def extractDataList (lib : URLLib) : List HNode → ScrapedData → String → ScrapedData
  | [], data, _ => data
  | c :: cs, data, baseURL =>
    extractDataList lib cs (extractData lib c data baseURL) baseURL

end

/-- The slice of an HTTP response the classification logic reads: the
status code and the header table (`headers k` is Go `Header.Get(k)`,
returning `""` for an absent header), plus the body text. -/
structure HTTPResponse where
  status : Nat
  headers : String → String
  body : String

/-- `detectAntiBotService` (main.go 367-391): seven checks in order,
first match returns its label, no match returns `""`. -/
def detectAntiBotService (h : String → String) : String :=
  if h "Server" == "cloudflare" || h "CF-Ray" != "" then "Cloudflare"
  else if h "X-Akamai-Transformed" != "" || h "X-Akamai-Session-Info" != "" then "Akamai"
  else if h "X-Amzn-RequestId" != "" || h "X-Amzn-Trace-Id" != "" then "AWS WAF"
  else if h "X-Iinfo" != "" || h "X-CDN" == "Incapsula" then "Imperva/Incapsula"
  else if h "X-DataDome" != "" then "DataDome"
  else if h "X-Sucuri-ID" != "" || h "X-Sucuri-Cache" != "" then "Sucuri"
  else if strContains (h "Server") "PerimeterX" then "PerimeterX"
  else ""

/-- The anti-bot suffix appended to the status-code error message
(main.go 169-172). -/
def antiBotSuffix (h : String → String) : String :=
  let info := detectAntiBotService h
  if info ≠ "" then " (detected: " ++ info ++ ")" else ""

/-- The outcome of the response-classification stage: either the body is
handed on to the parser, or the fetch fails with a message. -/
inductive FetchOutcome where
  | success (body : String)
  | failure (msg : String)
deriving DecidableEq, Repr

/-- The response-classification logic of `scrapeWebPage`
(main.go 148-186): a status other than `http.StatusOK` (200) fails with
the status code and any anti-bot label; a Content-Type not containing
`text/html` fails citing the content type; otherwise the body is
returned. -/
def checkResponse (resp : HTTPResponse) : FetchOutcome :=
  if resp.status ≠ 200 then
    FetchOutcome.failure
      ("unexpected status code: " ++ toString resp.status ++ antiBotSuffix resp.headers)
  else if !strContains (resp.headers "Content-Type") "text/html" then
    FetchOutcome.failure ("content type is not HTML: " ++ resp.headers "Content-Type")
  else
    FetchOutcome.success resp.body

/-- Whether classification handed the body on (the fetch succeeded). -/
def fetchSucceeded (resp : HTTPResponse) : Bool :=
  match checkResponse resp with
  | FetchOutcome.success _ => true
  | FetchOutcome.failure _ => false

/-! ## Derived predicates used to state the extraction properties -/

/-- The node is a `title` element. -/
def isTitleEl (n : HNode) : Bool :=
  n.ntype = NType.element && n.data = "title"

/-- The node is a `meta` element. -/
def isMetaEl (n : HNode) : Bool :=
  n.ntype = NType.element && n.data = "meta"

/-- The node is an `a` element. -/
def isAEl (n : HNode) : Bool :=
  n.ntype = NType.element && n.data = "a"

/-- The node is an `img` element. -/
def isImgEl (n : HNode) : Bool :=
  n.ntype = NType.element && n.data = "img"

/-- The node is one of the heading elements `h1` .. `h6`. -/
def isHeadingEl (n : HNode) : Bool :=
  n.ntype = NType.element &&
    (n.data = "h1" || n.data = "h2" || n.data = "h3" ||
     n.data = "h4" || n.data = "h5" || n.data = "h6")

/-- The `metaTags` key a `meta` element's attributes select: `name` when
non-empty, else `property` when non-empty, else none. -/
def metaStoreKey (n : HNode) : Option String :=
  let t := metaScan n.attrs
  if t.name ≠ "" then some t.name
  else if t.property ≠ "" then some t.property
  else none

/-- The `content` value a `meta` element's attributes carry. -/
def metaContentOf (n : HNode) : String :=
  (metaScan n.attrs).content

/-- The node is a `meta` element writing `metaTags` entry `k`. -/
def metaWritesKey (k : String) (n : HNode) : Bool :=
  isMetaEl n && metaStoreKey n = some k

/-- The node is a `meta` element with `name` attribute `description`. -/
def isDescMeta (n : HNode) : Bool :=
  isMetaEl n && (metaScan n.attrs).name = "description"

/-- The node is a `meta` element with `name` attribute `keywords`. -/
def isKeywMeta (n : HNode) : Bool :=
  isMetaEl n && (metaScan n.attrs).name = "keywords"

/-- An `a` element from which `extractLink` emits a link. -/
def linkEmit (n : HNode) : Bool :=
  isAEl n && goFirstAttr n.attrs "href" ≠ ""

/-- An `img` element from which `extractImage` emits an image URL. -/
def imgEmit (n : HNode) : Bool :=
  isImgEl n && goFirstAttr n.attrs "src" ≠ ""

/-- A heading element from which `extractHeading` emits a heading. -/
def headEmit (n : HNode) : Bool :=
  isHeadingEl n && trimSpace (getTextContent n) ≠ ""

/-- The link `extractLink` emits for an `a` element. -/
def mkLink (lib : URLLib) (baseURL : String) (n : HNode) : Link :=
  { href := resolveURL lib baseURL (goFirstAttr n.attrs "href"),
    text := trimSpace (getTextContent n) }

/-- The image URL `extractImage` emits for an `img` element. -/
def mkImage (lib : URLLib) (baseURL : String) (n : HNode) : String :=
  resolveURL lib baseURL (goFirstAttr n.attrs "src")

/-- The heading `extractHeading` emits. -/
def mkHeading (n : HNode) : Heading :=
  { level := headingLevel n.data, text := trimSpace (getTextContent n) }

/-! ## Association-list lemmas -/

theorem mapGet_mapInsert (m : List (String × String)) (k v key : String) :
    mapGet (mapInsert m k v) key = if k = key then some v else mapGet m key := by
  induction m with
  | nil => simp [mapInsert, mapGet]
  | cons p m ih =>
    obtain ⟨k', v'⟩ := p
    by_cases hk : k' = k
    · by_cases hkey : k = key
      · simp [mapInsert, mapGet, hk, hkey]
      · simp [mapInsert, mapGet, hk, hkey]
    · by_cases hkey : k' = key
      · have hk2 : ¬(k = key) := fun h => hk (hkey.trans h.symm)
        have hk3 : ¬(key = k) := fun h => hk2 h.symm
        simp [mapInsert, mapGet, hk, hkey, hk2, hk3]
      · simp [mapInsert, mapGet, hk, hkey, ih]

/-! ## Field-frame lemmas for the single-element extractors -/

theorem extractMetaTag_title (n : HNode) (d : ScrapedData) :
    (extractMetaTag n d).title = d.title := by
  simp only [extractMetaTag]
  split_ifs <;> rfl

theorem extractMetaTag_links (n : HNode) (d : ScrapedData) :
    (extractMetaTag n d).links = d.links := by
  simp only [extractMetaTag]
  split_ifs <;> rfl

theorem extractMetaTag_images (n : HNode) (d : ScrapedData) :
    (extractMetaTag n d).images = d.images := by
  simp only [extractMetaTag]
  split_ifs <;> rfl

theorem extractMetaTag_headings (n : HNode) (d : ScrapedData) :
    (extractMetaTag n d).headings = d.headings := by
  simp only [extractMetaTag]
  split_ifs <;> rfl

theorem extractMetaTag_description (n : HNode) (d : ScrapedData) :
    (extractMetaTag n d).description =
      if (metaScan n.attrs).name = "description" then metaContentOf n
      else d.description := by
  simp only [extractMetaTag, metaContentOf]
  split_ifs <;> simp_all

theorem extractMetaTag_keywords (n : HNode) (d : ScrapedData) :
    (extractMetaTag n d).keywords =
      if (metaScan n.attrs).name = "keywords" then metaContentOf n
      else d.keywords := by
  simp only [extractMetaTag, metaContentOf]
  split_ifs <;> simp_all

theorem extractMetaTag_metaGet (n : HNode) (d : ScrapedData) (k : String) :
    mapGet (extractMetaTag n d).metaTags k =
      if metaStoreKey n = some k then some (metaContentOf n)
      else mapGet d.metaTags k := by
  simp only [extractMetaTag, metaStoreKey, metaContentOf]
  split_ifs <;> simp_all [mapGet_mapInsert]

/-! ## What one `visit` step does to each result field -/

theorem visit_title (lib : URLLib) (base : String) (d : ScrapedData) (n : HNode) :
    (visit lib base d n).title =
      if isTitleEl n then getTextContent n else d.title := by
  by_cases he : n.ntype = NType.element
  · by_cases ht : n.data = "title"
    · simp [visit, isTitleEl, he, ht]
    · simp [visit, isTitleEl, he, ht, extractMetaTag_title, extractLink,
        extractImage, extractHeading, apply_ite ScrapedData.title]
  · simp [visit, isTitleEl, he]

theorem visit_description (lib : URLLib) (base : String) (d : ScrapedData) (n : HNode) :
    (visit lib base d n).description =
      if isDescMeta n then metaContentOf n else d.description := by
  by_cases he : n.ntype = NType.element
  · by_cases hm : n.data = "meta"
    · simp [visit, isDescMeta, isMetaEl, he, hm, extractMetaTag_description]
    · simp [visit, isDescMeta, isMetaEl, he, hm, extractLink, extractImage,
        extractHeading, apply_ite ScrapedData.description]
  · simp [visit, isDescMeta, isMetaEl, he]

theorem visit_keywords (lib : URLLib) (base : String) (d : ScrapedData) (n : HNode) :
    (visit lib base d n).keywords =
      if isKeywMeta n then metaContentOf n else d.keywords := by
  by_cases he : n.ntype = NType.element
  · by_cases hm : n.data = "meta"
    · simp [visit, isKeywMeta, isMetaEl, he, hm, extractMetaTag_keywords]
    · simp [visit, isKeywMeta, isMetaEl, he, hm, extractLink, extractImage,
        extractHeading, apply_ite ScrapedData.keywords]
  · simp [visit, isKeywMeta, isMetaEl, he]

theorem visit_metaGet (lib : URLLib) (base : String) (d : ScrapedData)
    (n : HNode) (k : String) :
    mapGet (visit lib base d n).metaTags k =
      if metaWritesKey k n then some (metaContentOf n)
      else mapGet d.metaTags k := by
  by_cases he : n.ntype = NType.element
  · by_cases hm : n.data = "meta"
    · simp [visit, metaWritesKey, isMetaEl, he, hm, extractMetaTag_metaGet]
    · simp [visit, metaWritesKey, isMetaEl, he, hm, extractLink, extractImage,
        extractHeading, apply_ite ScrapedData.metaTags]
  · simp [visit, metaWritesKey, isMetaEl, he]

theorem visit_links (lib : URLLib) (base : String) (d : ScrapedData) (n : HNode) :
    (visit lib base d n).links =
      d.links ++ (if linkEmit n then [mkLink lib base n] else []) := by
  by_cases he : n.ntype = NType.element
  · by_cases ha : n.data = "a"
    · simp only [visit, linkEmit, isAEl, mkLink, he, ha]
      simp [extractLink, apply_ite ScrapedData.links]
      split_ifs <;> simp_all
    · simp [visit, linkEmit, isAEl, he, ha, extractMetaTag_links, extractImage,
        extractHeading, apply_ite ScrapedData.links]
  · simp [visit, linkEmit, isAEl, he]

theorem visit_images (lib : URLLib) (base : String) (d : ScrapedData) (n : HNode) :
    (visit lib base d n).images =
      d.images ++ (if imgEmit n then [mkImage lib base n] else []) := by
  by_cases he : n.ntype = NType.element
  · by_cases hi : n.data = "img"
    · simp only [visit, imgEmit, isImgEl, mkImage, he, hi]
      simp [extractImage, apply_ite ScrapedData.images]
      split_ifs <;> simp_all
    · simp [visit, imgEmit, isImgEl, he, hi, extractMetaTag_images, extractLink,
        extractHeading, apply_ite ScrapedData.images]
  · simp [visit, imgEmit, isImgEl, he]

theorem extractHeading_headings (n : HNode) (d : ScrapedData) :
    (extractHeading n d).headings =
      d.headings ++
        (if trimSpace (getTextContent n) ≠ "" then [mkHeading n] else []) := by
  simp only [extractHeading, mkHeading]
  split_ifs <;> simp

theorem visit_headings (lib : URLLib) (base : String) (d : ScrapedData) (n : HNode) :
    (visit lib base d n).headings =
      d.headings ++ (if headEmit n then [mkHeading n] else []) := by
  by_cases he : n.ntype = NType.element
  · by_cases hh : n.data = "h1" ∨ n.data = "h2" ∨ n.data = "h3" ∨
        n.data = "h4" ∨ n.data = "h5" ∨ n.data = "h6"
    · simp only [visit]
      rcases hh with h | h | h | h | h | h <;>
        simp [h, he, extractHeading_headings, headEmit, isHeadingEl, mkHeading]
    · push_neg at hh
      obtain ⟨e1, e2, e3, e4, e5, e6⟩ := hh
      simp [visit, headEmit, isHeadingEl, he, e1, e2, e3, e4, e5, e6,
        extractMetaTag_headings, extractLink, extractImage,
        apply_ite ScrapedData.headings]
  · simp [visit, headEmit, isHeadingEl, he]

/-! ## Generic left-fold shapes

The extractor threads one accumulator through a node list, and so does
the attribute loop of `extractMetaTag` through an attribute list; the two
lemmas below cover the two update disciplines that occur (overwrite and
append). -/

/-- Last-write-wins shape: a component that each step overwrites exactly
when the item satisfies `p` is determined by the last `p`-item. -/
theorem foldl_last_write {α β γ : Type} (step : β → α → β)
    (f : β → γ) (p : α → Bool) (g : α → γ)
    (hv : ∀ acc a, f (step acc a) = if p a then g a else f acc) :
    ∀ (l : List α) (acc : β),
      f (List.foldl step acc l) = ((l.filter p).getLast?.map g).getD (f acc) := by
  intro l
  induction l with
  | nil => intro acc; simp
  | cons x xs ih =>
    intro acc
    rw [List.foldl_cons, ih]
    cases hp : p x
    · simp [List.filter_cons, hp, hv]
    · simp only [List.filter_cons, hp, if_pos]
      cases hxe : xs.filter p with
      | nil => simp [hxe, hv, hp]
      | cons y ys =>
        rcases hz : (y :: ys).getLast? with _ | z
        · exact absurd hz (by simp [List.getLast?_eq_none_iff])
        · simp [hz]

/-- Append shape: a component that each step extends by one entry exactly
when the item satisfies `p` accumulates the `p`-items in order. -/
theorem foldl_append_write {α β γ : Type} (step : β → α → β)
    (f : β → List γ) (p : α → Bool) (g : α → γ)
    (hv : ∀ acc a, f (step acc a) = f acc ++ if p a then [g a] else []) :
    ∀ (l : List α) (acc : β),
      f (List.foldl step acc l) = f acc ++ (l.filter p).map g := by
  intro l
  induction l with
  | nil => intro acc; simp
  | cons x xs ih =>
    intro acc
    rw [List.foldl_cons, ih, hv]
    cases hp : p x
    · simp [List.filter_cons, hp]
    · simp [List.filter_cons, hp]

mutual

/-- `extractData` is exactly a left fold of `visit` over the pre-order
node listing: the element dispatch runs on every node in document order,
parents before children, with no pruning. -/
theorem extractData_eq_foldl (lib : URLLib) (base : String) :
    ∀ (n : HNode) (d : ScrapedData),
      extractData lib n d base = (preorder n).foldl (visit lib base) d
  | .mk t dt a cs, d => by
    simp only [extractData, preorder, List.foldl_cons]
    exact extractDataList_eq_foldl lib base cs _

/-- The child loop of `extractData` is a left fold of `visit` over the
pre-order listing of the forest. -/
theorem extractDataList_eq_foldl (lib : URLLib) (base : String) :
    ∀ (ns : List HNode) (d : ScrapedData),
      extractDataList lib ns d base = (preorderList ns).foldl (visit lib base) d
  | [], _ => rfl
  | c :: cs, d => by
    simp only [extractDataList, preorderList, List.foldl_append]
    rw [← extractData_eq_foldl lib base c d]
    exact extractDataList_eq_foldl lib base cs _

end

/-! ## Characterization of a full extraction run -/

theorem extract_title (lib : URLLib) (base : String) (n : HNode) (d : ScrapedData) :
    (extractData lib n d base).title =
      (((preorder n).filter isTitleEl).getLast?.map getTextContent).getD d.title := by
  rw [extractData_eq_foldl]
  exact foldl_last_write (visit lib base) ScrapedData.title isTitleEl
    getTextContent (visit_title lib base) (preorder n) d

theorem extract_description (lib : URLLib) (base : String) (n : HNode) (d : ScrapedData) :
    (extractData lib n d base).description =
      (((preorder n).filter isDescMeta).getLast?.map metaContentOf).getD d.description := by
  rw [extractData_eq_foldl]
  exact foldl_last_write (visit lib base) ScrapedData.description isDescMeta
    metaContentOf (visit_description lib base) (preorder n) d

theorem extract_keywords (lib : URLLib) (base : String) (n : HNode) (d : ScrapedData) :
    (extractData lib n d base).keywords =
      (((preorder n).filter isKeywMeta).getLast?.map metaContentOf).getD d.keywords := by
  rw [extractData_eq_foldl]
  exact foldl_last_write (visit lib base) ScrapedData.keywords isKeywMeta
    metaContentOf (visit_keywords lib base) (preorder n) d

theorem extract_metaGet (lib : URLLib) (base : String) (n : HNode) (d : ScrapedData)
    (k : String) :
    mapGet (extractData lib n d base).metaTags k =
      (((preorder n).filter (metaWritesKey k)).getLast?.map
        (fun m => some (metaContentOf m))).getD (mapGet d.metaTags k) := by
  rw [extractData_eq_foldl]
  exact foldl_last_write (visit lib base) (fun d => mapGet d.metaTags k)
    (metaWritesKey k) (fun m => some (metaContentOf m))
    (fun d m => visit_metaGet lib base d m k) (preorder n) d

theorem extract_links (lib : URLLib) (base : String) (n : HNode) (d : ScrapedData) :
    (extractData lib n d base).links =
      d.links ++ ((preorder n).filter linkEmit).map (mkLink lib base) := by
  rw [extractData_eq_foldl]
  exact foldl_append_write (visit lib base) ScrapedData.links linkEmit
    (mkLink lib base) (visit_links lib base) (preorder n) d

theorem extract_images (lib : URLLib) (base : String) (n : HNode) (d : ScrapedData) :
    (extractData lib n d base).images =
      d.images ++ ((preorder n).filter imgEmit).map (mkImage lib base) := by
  rw [extractData_eq_foldl]
  exact foldl_append_write (visit lib base) ScrapedData.images imgEmit
    (mkImage lib base) (visit_images lib base) (preorder n) d

theorem extract_headings (lib : URLLib) (base : String) (n : HNode) (d : ScrapedData) :
    (extractData lib n d base).headings =
      d.headings ++ ((preorder n).filter headEmit).map mkHeading := by
  rw [extractData_eq_foldl]
  exact foldl_append_write (visit lib base) ScrapedData.headings headEmit
    mkHeading (visit_headings lib base) (preorder n) d

/-! ## Attribute-scan characterizations -/

theorem goFirstAttr_eq_head (attrs : List Attribute) (k : String) :
    goFirstAttr attrs k =
      ((attrs.filter (fun a => a.key == k)).head?.map Attribute.val).getD "" := by
  induction attrs with
  | nil => rfl
  | cons a rest ih =>
    by_cases h : a.key = k
    · simp [goFirstAttr, List.filter_cons, h]
    · simp [goFirstAttr, List.filter_cons, h, ih]

theorem metaScan_name_eq_last (attrs : List Attribute) :
    (metaScan attrs).name =
      ((attrs.filter (fun a => a.key == "name")).getLast?.map Attribute.val).getD "" := by
  unfold metaScan
  exact foldl_last_write metaStep MetaTriple.name (fun a => a.key == "name") Attribute.val
    (fun acc a => by
      simp only [metaStep]
      by_cases h : a.key = "name" <;> simp [h] <;> split_ifs <;> rfl)
    attrs { name := "", property := "", content := "" }

theorem metaScan_property_eq_last (attrs : List Attribute) :
    (metaScan attrs).property =
      ((attrs.filter (fun a => a.key == "property")).getLast?.map Attribute.val).getD "" := by
  unfold metaScan
  exact foldl_last_write metaStep MetaTriple.property (fun a => a.key == "property") Attribute.val
    (fun acc a => by
      simp only [metaStep]
      by_cases h : a.key = "property" <;> simp [h] <;> split_ifs <;> simp_all)
    attrs { name := "", property := "", content := "" }

theorem metaScan_content_eq_last (attrs : List Attribute) :
    (metaScan attrs).content =
      ((attrs.filter (fun a => a.key == "content")).getLast?.map Attribute.val).getD "" := by
  unfold metaScan
  exact foldl_last_write metaStep MetaTriple.content (fun a => a.key == "content") Attribute.val
    (fun acc a => by
      simp only [metaStep]
      by_cases h : a.key = "content" <;> simp [h] <;> split_ifs <;> simp_all)
    attrs { name := "", property := "", content := "" }

/-- `resolveURL` never returns the empty string on a non-empty reference,
provided rendering a resolved URL never yields the empty string (true of
`net/url`, whose rendering of a resolution against an absolute base
always starts with the base's scheme). -/
theorem resolveURL_ne_empty (lib : URLLib) (baseURL href : String)
    (hhref : href ≠ "")
    (hts : ∀ b r, lib.parse baseURL = some b →
      lib.urlToString (lib.resolveRef b r) ≠ "") :
    resolveURL lib baseURL href ≠ "" := by
  unfold resolveURL
  cases hb : lib.parse baseURL with
  | none => exact hhref
  | some b =>
    cases hr : lib.parse href with
    | none => exact hhref
    | some r => exact hts b r hb

/-! ## Concrete instances used to witness the conditional theorems -/

/-- A small computable instance of the `URLLib` interface, used only to
witness theorems whose statement is conditional: it parses every
non-empty string, resolves by path concatenation, and renders with an
`http://` front. -/
def concLib : URLLib :=
  { parse := fun s => if s = "" then none else some { scheme := "http", rest := s },
    resolveRef := fun b r => { scheme := b.scheme, rest := b.rest ++ "/" ++ r.rest },
    urlToString := fun u => "http://" ++ u.rest }

/-- A response with a 2xx-but-not-200 status and an HTML content type. -/
def resp201 : HTTPResponse :=
  { status := 201,
    headers := fun k => if k = "Content-Type" then "text/html" else "",
    body := "page" }

/-- A header table carrying only a `CF-Ray` header. -/
def cfHeaders : String → String :=
  fun k => if k = "CF-Ray" then "abc" else ""

/-- A one-element document: a single `a` element with one href. -/
def linkTree : HNode :=
  HNode.mk NType.element "a" [{ key := "href", val := "x" }]
    [HNode.mk NType.text "A" [] []]

/-- A result that already carries a non-empty description, to exhibit
overwriting by a content-less `meta` element. -/
def dPrior : ScrapedData :=
  { url := "u", title := "", description := "A", keywords := "",
    links := [], metaTags := [("description", "A")], images := [], headings := [] }

/-- One rule of the anti-bot classifier: a label and the header test
that triggers it. -/
structure ABRule where
  tag : String
  trigger : (String → String) → Bool

/-- The seven classifier rules of §4.3, in evaluation order. -/
def antiBotRules : List ABRule :=
  [ { tag := "Cloudflare",
      trigger := fun h => h "Server" == "cloudflare" || h "CF-Ray" != "" },
    { tag := "Akamai",
      trigger := fun h => h "X-Akamai-Transformed" != "" || h "X-Akamai-Session-Info" != "" },
    { tag := "AWS WAF",
      trigger := fun h => h "X-Amzn-RequestId" != "" || h "X-Amzn-Trace-Id" != "" },
    { tag := "Imperva/Incapsula",
      trigger := fun h => h "X-Iinfo" != "" || h "X-CDN" == "Incapsula" },
    { tag := "DataDome",
      trigger := fun h => h "X-DataDome" != "" },
    { tag := "Sucuri",
      trigger := fun h => h "X-Sucuri-ID" != "" || h "X-Sucuri-Cache" != "" },
    { tag := "PerimeterX",
      trigger := fun h => strContains (h "Server") "PerimeterX" } ]

/-! ## The claims -/

/-- C1, counterexample: the fetch gate is *not* "status is 2xx": the
response `resp201` has status 201 (a 2xx status) and an HTML content
type, yet classification does not return the body. -/
theorem C1_counterexample :
    200 ≤ resp201.status ∧ resp201.status < 300 ∧
    strContains (resp201.headers "Content-Type") "text/html" = true ∧
    fetchSucceeded resp201 = false := by
  refine ⟨by decide, by decide, by decide, by decide⟩

/-- C1 (amended): the fetch returns the body iff the status is exactly
200 and the content type contains `text/html`; a non-200 status fails
with a message carrying the status code and any anti-bot label; a 200
status with a non-HTML content type fails citing the actual content
type; on success exactly the body is handed on. -/
theorem C1_fetch_gate (resp : HTTPResponse) :
    (fetchSucceeded resp = true ↔
      (resp.status = 200 ∧
        strContains (resp.headers "Content-Type") "text/html" = true)) ∧
    (resp.status ≠ 200 →
      checkResponse resp =
        FetchOutcome.failure
          ("unexpected status code: " ++ toString resp.status ++ antiBotSuffix resp.headers)) ∧
    (resp.status = 200 →
      strContains (resp.headers "Content-Type") "text/html" = false →
      checkResponse resp =
        FetchOutcome.failure ("content type is not HTML: " ++ resp.headers "Content-Type")) ∧
    (fetchSucceeded resp = true → checkResponse resp = FetchOutcome.success resp.body) := by
  unfold fetchSucceeded checkResponse
  split_ifs with h1 h2 <;> simp_all

/-- C1 witness: the amended theorem applied to the concrete response
`resp201`. -/
theorem C1_fetch_gate_witness :
    checkResponse resp201 =
      FetchOutcome.failure
        ("unexpected status code: " ++ toString resp201.status ++ antiBotSuffix resp201.headers) :=
  (C1_fetch_gate resp201).2.1 (by decide)

/-- C6: the validator accepts exactly the strings that parse with scheme
`http` or `https`. -/
theorem C6_validator (lib : URLLib) (s : String) :
    validateURL lib s = true ↔
      ∃ u, lib.parse s = some u ∧ (u.scheme = "http" ∨ u.scheme = "https") := by
  unfold validateURL
  cases hp : lib.parse s with
  | none => simp
  | some u =>
    simp only [Bool.not_eq_true', Bool.and_eq_false_iff]
    constructor
    · intro h
      refine ⟨u, rfl, ?_⟩
      rcases h with h | h <;> simp_all
    · rintro ⟨u', hu', h⟩
      cases hu'
      rcases h with h | h <;> simp [h]

/-- C6 witness: the validator evaluated through the theorem on a
concrete accepted string. -/
theorem C6_validator_witness : validateURL concLib "http://e" = true :=
  (C6_validator concLib "http://e").mpr ⟨{ scheme := "http", rest := "http://e" }, by decide, Or.inl rfl⟩

/-- C7: after extraction the title is the (untrimmed) full descendant
text of the last `title` element in pre-order, and `""` when there is
none. -/
theorem C7_title_last_preorder (lib : URLLib) (base u : String) (n : HNode) :
    (extractData lib n (initData u) base).title =
      (((preorder n).filter isTitleEl).getLast?.map getTextContent).getD "" :=
  extract_title lib base n (initData u)

/-- C5: the classifier equals "label of the first matching rule in the
seven-rule list, else no label"; in particular a `Server` header equal to
`cloudflare` or a present `CF-Ray` header yields `Cloudflare` even when
later rules also match, and no label is returned iff no rule matches. -/
theorem C5_antibot_first_match (h : String → String) :
    detectAntiBotService h =
      ((antiBotRules.find? (fun rule => rule.trigger h)).map ABRule.tag).getD "" ∧
    ((h "Server" = "cloudflare" ∨ h "CF-Ray" ≠ "") →
      detectAntiBotService h = "Cloudflare") ∧
    (detectAntiBotService h = "" ↔ ∀ rule ∈ antiBotRules, rule.trigger h = false) := by
  have main : detectAntiBotService h =
      ((antiBotRules.find? (fun rule => rule.trigger h)).map ABRule.tag).getD "" := by
    unfold detectAntiBotService antiBotRules
    cases hb1 : (h "Server" == "cloudflare" || h "CF-Ray" != "") with
    | true => simp [List.find?, hb1]
    | false =>
    cases hb2 : (h "X-Akamai-Transformed" != "" || h "X-Akamai-Session-Info" != "") with
    | true => simp [List.find?, hb1, hb2]
    | false =>
    cases hb3 : (h "X-Amzn-RequestId" != "" || h "X-Amzn-Trace-Id" != "") with
    | true => simp [List.find?, hb1, hb2, hb3]
    | false =>
    cases hb4 : (h "X-Iinfo" != "" || h "X-CDN" == "Incapsula") with
    | true => simp [List.find?, hb1, hb2, hb3, hb4]
    | false =>
    cases hb5 : (h "X-DataDome" != "") with
    | true => simp [List.find?, hb1, hb2, hb3, hb4, hb5]
    | false =>
    cases hb6 : (h "X-Sucuri-ID" != "" || h "X-Sucuri-Cache" != "") with
    | true => simp [List.find?, hb1, hb2, hb3, hb4, hb5, hb6]
    | false =>
    cases hb7 : (strContains (h "Server") "PerimeterX") with
    | true => simp [List.find?, hb1, hb2, hb3, hb4, hb5, hb6, hb7]
    | false => simp [List.find?, hb1, hb2, hb3, hb4, hb5, hb6, hb7]
  refine ⟨main, ?_, ?_⟩
  · intro hcf
    have hb : (h "Server" == "cloudflare" || h "CF-Ray" != "") = true := by
      rcases hcf with hc | hc <;> simp [hc]
    unfold detectAntiBotService
    rw [if_pos hb]
  · rw [main]
    constructor
    · intro he rule hrule
      by_contra htr
      rw [Bool.not_eq_false] at htr
      rcases hf : antiBotRules.find? (fun rule => rule.trigger h) with _ | rule'
      · have := List.find?_eq_none.mp hf rule hrule
        simp [htr] at this
      · rw [hf] at he
        have hmem := List.mem_of_find?_eq_some hf
        simp only [antiBotRules, List.mem_cons, List.mem_singleton] at hmem
        rcases hmem with h' | h' | h' | h' | h' | h' | h' | h' <;>
          first
            | (subst h'; simp at he)
            | simp at h'
    · intro hall
      have hnone : antiBotRules.find? (fun rule => rule.trigger h) = none :=
        List.find?_eq_none.mpr (fun x hx => by simp [hall x hx])
      rw [hnone]
      rfl

/-- C5 witness: a header set with only `CF-Ray` present classifies as
Cloudflare through the theorem. -/
theorem C5_antibot_first_match_witness :
    detectAntiBotService cfHeaders = "Cloudflare" :=
  (C5_antibot_first_match cfHeaders).2.1 (Or.inr (by decide))

/-- C2: the resolver returns the library resolution when both strings
parse and the original reference verbatim when either parse fails; hence
every stored href/src is the resolver's output on the original reference
(so either a resolved URL or the reference verbatim), and resolution
never prevents a link or image from being recorded. -/
theorem C2_resolve_best_effort (lib : URLLib) (baseURL href : String)
    (n : HNode) (d : ScrapedData) :
    (∀ b r, lib.parse baseURL = some b → lib.parse href = some r →
      resolveURL lib baseURL href = lib.urlToString (lib.resolveRef b r)) ∧
    (lib.parse baseURL = none ∨ lib.parse href = none →
      resolveURL lib baseURL href = href) ∧
    (∀ link ∈ (extractData lib n d baseURL).links,
      link ∈ d.links ∨
      ∃ m ∈ preorder n, isAEl m = true ∧
        link.href = resolveURL lib baseURL (goFirstAttr m.attrs "href")) ∧
    (∀ img ∈ (extractData lib n d baseURL).images,
      img ∈ d.images ∨
      ∃ m ∈ preorder n, isImgEl m = true ∧
        img = resolveURL lib baseURL (goFirstAttr m.attrs "src")) := by
  refine ⟨?_, ?_, ?_, ?_⟩
  · intro b r hb hr
    unfold resolveURL
    rw [hb, hr]
  · intro hfail
    unfold resolveURL
    rcases hfail with hf | hf
    · rw [hf]
    · cases hb : lib.parse baseURL with
      | none => rfl
      | some b => rw [hf]
  · intro link hmem
    rw [extract_links] at hmem
    rcases List.mem_append.mp hmem with hl | hl
    · exact Or.inl hl
    · right
      obtain ⟨m, hm, hlink⟩ := List.mem_map.mp hl
      have hfil := List.mem_filter.mp hm
      refine ⟨m, hfil.1, ?_, ?_⟩
      · have := hfil.2
        unfold linkEmit at this
        exact (Bool.and_eq_true _ _ |>.mp this).1
      · rw [← hlink]
        rfl
  · intro img hmem
    rw [extract_images] at hmem
    rcases List.mem_append.mp hmem with hl | hl
    · exact Or.inl hl
    · right
      obtain ⟨m, hm, himg⟩ := List.mem_map.mp hl
      have hfil := List.mem_filter.mp hm
      refine ⟨m, hfil.1, ?_, ?_⟩
      · have := hfil.2
        unfold imgEmit at this
        exact (Bool.and_eq_true _ _ |>.mp this).1
      · rw [← himg]
        rfl

/-- C2 witness: through the theorem, an unparsable base (the empty
string under `concLib`) leaves the reference untouched. -/
theorem C2_resolve_best_effort_witness :
    resolveURL concLib "" "x" = "x" :=
  (C2_resolve_best_effort concLib "" "x" linkTree (initData "u")).2.1 (Or.inl (by decide))

/-- A `meta` element with a `property` attribute but no `name`. -/
def propMeta : HNode :=
  HNode.mk NType.element "meta"
    [{ key := "property", val := "og:description" }, { key := "content", val := "X" }] []

/-- A `meta` element with `name` equal to `description` and no `content`
attribute. -/
def nlMeta : HNode :=
  HNode.mk NType.element "meta" [{ key := "name", val := "description" }] []

/-- C3: attribute tie-breaking is asymmetric — the link path takes the
value at the *first* occurrence of a key (this is also what the emitted
link records), while the meta path scans the whole list and keeps the
*last* occurrence of `name`, `property` and `content`. -/
theorem C3_attr_scan_asymmetry (lib : URLLib) (b : String) (d : ScrapedData)
    (n : HNode) (k : String) :
    (extractLink lib n d b).links =
      d.links ++
        (if goFirstAttr n.attrs "href" ≠ "" then [mkLink lib b n] else []) ∧
    goFirstAttr n.attrs k =
      ((n.attrs.filter (fun a => a.key == k)).head?.map Attribute.val).getD "" ∧
    (metaScan n.attrs).name =
      ((n.attrs.filter (fun a => a.key == "name")).getLast?.map Attribute.val).getD "" ∧
    (metaScan n.attrs).property =
      ((n.attrs.filter (fun a => a.key == "property")).getLast?.map Attribute.val).getD "" ∧
    (metaScan n.attrs).content =
      ((n.attrs.filter (fun a => a.key == "content")).getLast?.map Attribute.val).getD "" := by
  refine ⟨?_, goFirstAttr_eq_head _ _, metaScan_name_eq_last _,
    metaScan_property_eq_last _, metaScan_content_eq_last _⟩
  simp only [extractLink, mkLink]
  split_ifs <;> simp

/-- C4: after a run starting from the empty result, each `metaTags` entry
is the `content` of the last meta element in document order writing that
key (`name` first, else `property`); the `description`/`keywords` fields
equal the `content` of the last meta element whose *name* is
`description`/`keywords` (so `property`-keyed entries never set them, as
the final conjunct states per element). -/
theorem C4_meta_extraction (lib : URLLib) (base u k : String) (n : HNode) :
    mapGet (extractData lib n (initData u) base).metaTags k =
      (((preorder n).filter (metaWritesKey k)).getLast?).map metaContentOf ∧
    (extractData lib n (initData u) base).description =
      (((preorder n).filter isDescMeta).getLast?.map metaContentOf).getD "" ∧
    (extractData lib n (initData u) base).keywords =
      (((preorder n).filter isKeywMeta).getLast?.map metaContentOf).getD "" ∧
    (∀ d : ScrapedData, (metaScan n.attrs).name = "" →
      (extractMetaTag n d).description = d.description ∧
      (extractMetaTag n d).keywords = d.keywords) := by
  refine ⟨?_, ?_, ?_, ?_⟩
  · rw [extract_metaGet]
    cases ((preorder n).filter (metaWritesKey k)).getLast? <;> rfl
  · rw [extract_description]
    rfl
  · rw [extract_keywords]
    rfl
  · intro d hname
    constructor
    · rw [extractMetaTag_description]
      simp [hname]
    · rw [extractMetaTag_keywords]
      simp [hname]

/-- C4 witness: a `property`-keyed meta element leaves the description
and keywords fields untouched through the theorem's final conjunct. -/
theorem C4_meta_extraction_witness :
    (extractMetaTag propMeta dPrior).description = dPrior.description ∧
    (extractMetaTag propMeta dPrior).keywords = dPrior.keywords :=
  (C4_meta_extraction concLib "b" "u" "k" propMeta).2.2.2 dPrior (by decide)

/-- C8: a link is recorded for exactly the `a` elements whose first
`href` occurrence is non-empty (`linkEmit`); the recorded text is the
trimmed descendant text (possibly empty, see `mkLink`); and provided the
library never renders a resolved reference as the empty string, every
recorded href is non-empty. -/
theorem C8_link_iff (lib : URLLib) (base u : String) (n : HNode) :
    (extractData lib n (initData u) base).links =
      ((preorder n).filter linkEmit).map (mkLink lib base) ∧
    (∀ m : HNode, linkEmit m = true ↔
      (isAEl m = true ∧ goFirstAttr m.attrs "href" ≠ "")) ∧
    ((∀ b r, lib.parse base = some b → lib.urlToString (lib.resolveRef b r) ≠ "") →
      ∀ link ∈ (extractData lib n (initData u) base).links, link.href ≠ "") := by
  have hchar : (extractData lib n (initData u) base).links =
      ((preorder n).filter linkEmit).map (mkLink lib base) := by
    rw [extract_links]
    rfl
  refine ⟨hchar, ?_, ?_⟩
  · intro m
    unfold linkEmit
    simp
  · intro hts link hmem
    rw [hchar] at hmem
    obtain ⟨m, hm, hlink⟩ := List.mem_map.mp hmem
    have hfil := List.mem_filter.mp hm
    have hhref : goFirstAttr m.attrs "href" ≠ "" := by
      have := hfil.2
      unfold linkEmit at this
      have h2 := (Bool.and_eq_true _ _ |>.mp this).2
      simpa using h2
    rw [← hlink]
    exact resolveURL_ne_empty lib base (goFirstAttr m.attrs "href") hhref hts

/-- C8 witness: the one-link document `linkTree` under `concLib` (whose
rendering always begins with `http://`) records a link with a non-empty
href. -/
theorem C8_link_iff_witness :
    ({ href := "http://b/x", text := "A" } : Link) ∈
      (extractData concLib linkTree (initData "u") "b").links ∧
    ({ href := "http://b/x", text := "A" } : Link).href ≠ "" := by
  refine ⟨by decide, ?_⟩
  refine (C8_link_iff concLib "b" "u" linkTree).2.2 ?_ _ (by decide)
  intro b r _
  simp only [concLib]
  intro hcontr
  have hlen := congrArg String.length hcontr
  rw [String.length_append] at hlen
  have h7 : "http://".length = 7 := rfl
  simp [h7] at hlen

/-- C9: a heading is recorded for exactly the `h1`..`h6` elements whose
trimmed descendant text is non-empty, with that text and with the level
given by the tag's digit. -/
theorem C9_heading_filter (lib : URLLib) (base u : String) (n : HNode) :
    (extractData lib n (initData u) base).headings =
      ((preorder n).filter headEmit).map mkHeading ∧
    (∀ m : HNode, headEmit m = true ↔
      (isHeadingEl m = true ∧ trimSpace (getTextContent m) ≠ "")) ∧
    (∀ m : HNode, mkHeading m =
      { level := headingLevel m.data, text := trimSpace (getTextContent m) }) ∧
    headingLevel "h1" = 1 ∧ headingLevel "h2" = 2 ∧ headingLevel "h3" = 3 ∧
    headingLevel "h4" = 4 ∧ headingLevel "h5" = 5 ∧ headingLevel "h6" = 6 := by
  refine ⟨?_, ?_, fun m => rfl, by decide, by decide, by decide, by decide, by decide, by decide⟩
  · rw [extract_headings]
    rfl
  · intro m
    unfold headEmit
    simp

/-- C10: a `meta` element with a non-empty `name` and no `content`
attribute stores the empty string under that name, and sets the
description/keywords field to the empty string when the name is
`description`/`keywords` (so it can overwrite an earlier non-empty
value, as the witness exhibits). -/
theorem C10_contentless_meta (n : HNode) (d : ScrapedData)
    (hnc : ∀ a ∈ n.attrs, a.key ≠ "content")
    (hnm : (metaScan n.attrs).name ≠ "") :
    metaContentOf n = "" ∧
    mapGet (extractMetaTag n d).metaTags (metaScan n.attrs).name = some "" ∧
    ((metaScan n.attrs).name = "description" → (extractMetaTag n d).description = "") ∧
    ((metaScan n.attrs).name = "keywords" → (extractMetaTag n d).keywords = "") := by
  have hcontent : metaContentOf n = "" := by
    unfold metaContentOf
    rw [metaScan_content_eq_last]
    have hnil : n.attrs.filter (fun a => a.key == "content") = [] :=
      List.filter_eq_nil.mpr (fun a ha => by simp [hnc a ha])
    rw [hnil]
    rfl
  have hkey : metaStoreKey n = some (metaScan n.attrs).name := by
    unfold metaStoreKey
    simp [hnm]
  refine ⟨hcontent, ?_, ?_, ?_⟩
  · rw [extractMetaTag_metaGet, if_pos hkey, hcontent]
  · intro hd
    rw [extractMetaTag_description, if_pos hd, hcontent]
  · intro hk
    rw [extractMetaTag_keywords, if_pos hk, hcontent]

/-- C10 witness: `<meta name="description">` with no content attribute
overwrites a previously captured non-empty description (`dPrior` holds
description `A`) with the empty string. -/
theorem C10_contentless_meta_witness :
    (extractMetaTag nlMeta dPrior).description = "" ∧
    mapGet (extractMetaTag nlMeta dPrior).metaTags "description" = some "" :=
  ⟨(C10_contentless_meta nlMeta dPrior (by decide) (by decide)).2.2.1 (by decide),
   (C10_contentless_meta nlMeta dPrior (by decide) (by decide)).2.1⟩

end Scraper
